import Mathlib

/-!
Verification of the numeric core of a brachistochrone plotting application
(`plot.py`).  The core is two functions: `braquistocrona`, which returns the
sampled cycloid path from the origin to a target point together with its
travel time, and `linear`, which returns the sampled straight-line path and
its travel time.

Modelling conventions, faithful to the Python/numpy source:
* Real numbers stand for Python floats; `np.sin`, `np.cos`, `np.sqrt` become
  `Real.sin`, `Real.cos`, `Real.sqrt`.
* Python float division `a / b` raises `ZeroDivisionError` exactly when the
  divisor is zero; the two places where the source divides Python scalars by
  a possibly-zero Python scalar (`final_y / final_x` inside the root function
  `f`, reached on the first evaluation of `f` by the root finder, and the
  division by the slope `m` in `linear`'s time formula) are modelled as an
  explicit `Except` error.  Divisions of numpy scalars (the radius
  `R = final_y / (1 - np.cos(final_theta))`) do not raise in numpy and are
  modelled as plain real division.
* `scipy.optimize.newton(f, np.pi/2)` performs a secant/Newton float
  iteration that has no shallow embedding; its result, the solved sweep
  angle, is passed to `braquistocrona` as the explicit parameter `θ2`.  In
  the source it is a function of `final_x` and `final_y` alone (the root
  function `f` closes over exactly those two arguments and the seed is the
  constant `np.pi/2`), so it does not depend on the sample count `N`.
  The defining property of the solved angle is `cycloidF final_x final_y θ2 = 0`,
  the root equation the source hands to the solver, and the first-arc root
  lies in the open interval `(0, 2π)`.
-/

namespace BrachApp

/-- Runtime errors of the numeric core.  Python float division by an exactly
zero divisor raises `ZeroDivisionError`; no other exception is raised by the
modelled code paths. -/
inductive PyErr where
  | zeroDivision
  deriving DecidableEq

/-- Gravitational acceleration, the module constant `g = 9.81` of `plot.py`. -/
noncomputable def g : ℝ := 9.81

/-- Model of `np.linspace(start, stop, num)` with the default inclusive
endpoint: `num` evenly spaced samples `start + (stop - start) * i / (num - 1)`
for `i = 0, …, num - 1`.  Over the reals the exact-endpoint guarantee of
numpy coincides with the closed formula. -/
noncomputable def linspace (start stop : ℝ) (num : ℕ) : List ℝ :=
  List.ofFn fun i : Fin num => start + (stop - start) * ((i : ℕ) : ℝ) / ((num : ℝ) - 1)

/-- The root function `f(theta) = final_y/final_x - (1-cos theta)/(theta-sin theta)`
handed by `braquistocrona` to `scipy.optimize.newton`.  The solved sweep angle
`θ2` satisfies `cycloidF final_x final_y θ2 = 0`. -/
noncomputable def cycloidF (final_x final_y θ : ℝ) : ℝ :=
  final_y / final_x - (1 - Real.cos θ) / (θ - Real.sin θ)

/-- The generating-circle radius `R = final_y / (1 - np.cos(final_theta))`
computed by `braquistocrona` (numpy scalar division, which does not raise). -/
noncomputable def cycloidR (final_y θ2 : ℝ) : ℝ :=
  final_y / (1 - Real.cos θ2)

/-- The travel time computed by `braquistocrona`, with the source's branch on
`final_theta == np.pi`. -/
noncomputable def cycloidT (final_y θ2 : ℝ) : ℝ :=
  if θ2 = Real.pi then Real.pi * Real.sqrt (cycloidR final_y θ2 / g)
  else θ2 * Real.sqrt (cycloidR final_y θ2 / g)

/-- `braquistocrona(final_x, final_y, N)` of `plot.py`, with the solved sweep
angle `θ2` (the result of `newton(f, np.pi/2)`, a function of `final_x` and
`final_y` only) passed explicitly.  Returns the sampled x-coordinates, the
sampled y-coordinates and the travel time.  If `final_x` is zero the Python
division `final_y/final_x` inside `f` raises `ZeroDivisionError` on the first
evaluation by the root finder, before anything is returned. -/
noncomputable def braquistocrona (final_x final_y θ2 : ℝ) (N : ℕ) :
    Except PyErr (List ℝ × List ℝ × ℝ) :=
  if final_x = 0 then .error .zeroDivision
  else
    let R := cycloidR final_y θ2
    let theta := linspace 0 θ2 N
    let x := theta.map fun t => R * (t - Real.sin t)
    let y := theta.map fun t => R * (1 - Real.cos t)
    .ok (x, y, cycloidT final_y θ2)

/-- The travel time `T = np.sqrt(2*(1+m**2)/g/m * final_x)` computed by
`linear`, as a function of the endpoint. -/
noncomputable def linearT (final_x final_y : ℝ) : ℝ :=
  Real.sqrt (2 * (1 + (final_y / final_x) ^ 2) / g / (final_y / final_x) * final_x)

/-- `linear(final_x, final_y, N)` of `plot.py`.  The slope
`m = final_y / final_x` is a Python float division and raises
`ZeroDivisionError` when `final_x` is zero; the time formula divides by `m`
(Python scalar division) and raises `ZeroDivisionError` when `m` is zero,
after the sample arrays have been built but before anything is returned. -/
noncomputable def linear (final_x final_y : ℝ) (N : ℕ) :
    Except PyErr (List ℝ × List ℝ × ℝ) :=
  if final_x = 0 then .error .zeroDivision
  else
    let m := final_y / final_x
    let x := linspace 0 final_x N
    let y := x.map fun t => m * t
    if m = 0 then .error .zeroDivision
    else .ok (x, y, linearT final_x final_y)

/-- The uniform travel-time formula `T = θ2 · sqrt(R / g)` exactly as the spec
states it (section 4.1, step 6), written from the spec's words for the
refinement claim C2 and to be compared with the branched `cycloidT` of the
source. -/
noncomputable def specCycloidT (final_y θ2 : ℝ) : ℝ :=
  θ2 * Real.sqrt (cycloidR final_y θ2 / g)

/-! ### Basic facts about `linspace` -/

lemma linspace_length (a b : ℝ) (n : ℕ) : (linspace a b n).length = n :=
  List.length_ofFn _

lemma linspace_getElem? (a b : ℝ) {n i : ℕ} (h : i < n) :
    (linspace a b n)[i]? = some (a + (b - a) * i / ((n : ℝ) - 1)) := by
  simp [linspace, List.getElem?_ofFn, List.ofFnNthVal, h]

lemma linspace_head? (a b : ℝ) {n : ℕ} (h : 0 < n) :
    (linspace a b n).head? = some a := by
  rw [List.head?_eq_getElem?, linspace_getElem? a b h]
  norm_num

lemma linspace_getLast? (a b : ℝ) {n : ℕ} (h : 2 ≤ n) :
    (linspace a b n).getLast? = some b := by
  have h1 : n - 1 < n := by omega
  have hc : ((n - 1 : ℕ) : ℝ) = (n : ℝ) - 1 := by
    have : (1 : ℕ) ≤ n := by omega
    push_cast [Nat.cast_sub this]
    ring
  have hne : ((n : ℝ) - 1) ≠ 0 := by
    have : (2 : ℝ) ≤ (n : ℝ) := by exact_mod_cast h
    nlinarith
  rw [List.getLast?_eq_getElem?, linspace_length, linspace_getElem? a b h1, hc]
  field_simp

/-! ### Unfolding the two solvers away from their error cases -/

lemma braquistocrona_ok {final_x : ℝ} (final_y θ2 : ℝ) (N : ℕ) (hx : final_x ≠ 0) :
    braquistocrona final_x final_y θ2 N =
      .ok ((linspace 0 θ2 N).map fun t => cycloidR final_y θ2 * (t - Real.sin t),
           (linspace 0 θ2 N).map fun t => cycloidR final_y θ2 * (1 - Real.cos t),
           cycloidT final_y θ2) := by
  simp [braquistocrona, hx]

lemma linear_ok {final_x final_y : ℝ} (N : ℕ) (hx : final_x ≠ 0)
    (hm : final_y / final_x ≠ 0) :
    linear final_x final_y N =
      .ok (linspace 0 final_x N,
           (linspace 0 final_x N).map fun t => final_y / final_x * t,
           linearT final_x final_y) := by
  simp [linear, hx, hm]

lemma g_pos : 0 < g := by
  norm_num [g]

/-- The source's branched travel time agrees with the uniform formula: in the
`θ2 = π` branch the returned value `π·sqrt(R/g)` is the uniform formula at π. -/
lemma cycloidT_eq (final_y θ2 : ℝ) :
    cycloidT final_y θ2 = θ2 * Real.sqrt (cycloidR final_y θ2 / g) := by
  unfold cycloidT
  split_ifs with h
  · rw [h]
  · rfl

/-! ### Consequences of the root equation for the solved sweep angle -/

lemma theta_sub_sin_pos {θ : ℝ} (h : 0 < θ) : 0 < θ - Real.sin θ :=
  sub_pos.mpr (Real.sin_lt h)

lemma root_ratio {x2 y2 θ2 : ℝ} (hroot : cycloidF x2 y2 θ2 = 0) :
    y2 / x2 = (1 - Real.cos θ2) / (θ2 - Real.sin θ2) := by
  unfold cycloidF at hroot
  linarith

lemma one_sub_cos_pos {x2 y2 θ2 : ℝ} (hx : 0 < x2) (hy : 0 < y2) (hθ : 0 < θ2)
    (hroot : cycloidF x2 y2 θ2 = 0) : 0 < 1 - Real.cos θ2 := by
  have hd := theta_sub_sin_pos hθ
  have hr := root_ratio hroot
  rcases lt_or_eq_of_le (Real.cos_le_one θ2) with hlt | heq
  · linarith
  · exfalso
    have h0 : y2 / x2 = 0 := by
      rw [hr, heq]
      simp
    have hpos : 0 < y2 / x2 := div_pos hy hx
    rw [h0] at hpos
    exact lt_irrefl 0 hpos

lemma root_cross {x2 y2 θ2 : ℝ} (hx : x2 ≠ 0) (hd : θ2 - Real.sin θ2 ≠ 0)
    (hroot : cycloidF x2 y2 θ2 = 0) :
    y2 * (θ2 - Real.sin θ2) = x2 * (1 - Real.cos θ2) := by
  have hr := root_ratio hroot
  field_simp at hr
  linarith

/-! ### The brachistochrone inequality

The comparison of the two travel times reduces, after clearing denominators,
to `θ² (1 - cos θ) < 2 (θ - sin θ)² + 2 (1 - cos θ)²` on `(0, 2π)`.  Writing
`θ = 2u`, the difference of the two sides is exactly `8 (u cos u - sin u)²`,
and `u cos u - sin u < 0` on `(0, π)` because `u < tan u` below `π/2`. -/

lemma cycloid_key (u : ℝ) :
    2 * (2 * u - Real.sin (2 * u)) ^ 2 + 2 * (1 - Real.cos (2 * u)) ^ 2
      - (2 * u) ^ 2 * (1 - Real.cos (2 * u))
      = 8 * (u * Real.cos u - Real.sin u) ^ 2 := by
  rw [Real.sin_two_mul, Real.cos_two_mul]
  linear_combination (8 * (Real.cos u ^ 2 - 1)) * Real.sin_sq_add_cos_sq u

lemma tan_gap_neg {u : ℝ} (h0 : 0 < u) (hπ : u < Real.pi) :
    u * Real.cos u - Real.sin u < 0 := by
  rcases lt_or_le u (Real.pi / 2) with hlt | hge
  · have hcos : 0 < Real.cos u :=
      Real.cos_pos_of_mem_Ioo ⟨by linarith [Real.pi_pos], hlt⟩
    have htan := Real.lt_tan h0 hlt
    rw [Real.tan_eq_sin_div_cos] at htan
    have := (lt_div_iff₀ hcos).mp htan
    linarith
  · have hcos : Real.cos u ≤ 0 :=
      Real.cos_nonpos_of_pi_div_two_le_of_le hge (by linarith [Real.pi_pos])
    have hsin : 0 < Real.sin u := Real.sin_pos_of_pos_of_lt_pi h0 hπ
    have hmul : u * Real.cos u ≤ 0 := mul_nonpos_of_nonneg_of_nonpos h0.le hcos
    linarith

lemma key_strict {θ : ℝ} (h0 : 0 < θ) (h2π : θ < 2 * Real.pi) :
    θ ^ 2 * (1 - Real.cos θ) < 2 * (θ - Real.sin θ) ^ 2 + 2 * (1 - Real.cos θ) ^ 2 := by
  have hu0 : 0 < θ / 2 := by linarith
  have huπ : θ / 2 < Real.pi := by linarith
  have hneg := tan_gap_neg hu0 huπ
  have hsq : 0 < (θ / 2 * Real.cos (θ / 2) - Real.sin (θ / 2)) ^ 2 :=
    pow_two_pos_of_ne_zero hneg.ne
  have hkey := cycloid_key (θ / 2)
  have hθeq : 2 * (θ / 2) = θ := by ring
  rw [hθeq] at hkey
  linarith

lemma time_sq_lt {x2 y2 θ2 : ℝ} (hx : 0 < x2) (hy : 0 < y2) (h0 : 0 < θ2)
    (h2π : θ2 < 2 * Real.pi) (hroot : cycloidF x2 y2 θ2 = 0) :
    θ2 ^ 2 * (cycloidR y2 θ2 / g) <
      2 * (1 + (y2 / x2) ^ 2) / g / (y2 / x2) * x2 := by
  have hd := theta_sub_sin_pos h0
  have hc := one_sub_cos_pos hx hy h0 hroot
  have hcross := root_cross hx.ne' hd.ne' hroot
  have hkey := key_strict h0 h2π
  have hm : 0 < y2 / x2 := div_pos hy hx
  have hL : θ2 ^ 2 * (cycloidR y2 θ2 / g) =
      θ2 ^ 2 * y2 / ((1 - Real.cos θ2) * g) := by
    unfold cycloidR
    field_simp
  have hR : 2 * (1 + (y2 / x2) ^ 2) / g / (y2 / x2) * x2 =
      2 * (x2 ^ 2 + y2 ^ 2) / (g * y2) := by
    field_simp [hx.ne', hy.ne', g_pos.ne']
    ring
  rw [hL, hR]
  rw [div_lt_div_iff₀ (mul_pos hc g_pos) (mul_pos g_pos hy)]
  -- goal: θ2² y2 (g y2) < 2 (x2² + y2²) ((1-c) g); use y2 (θ2-s) = x2 (1-c)
  -- multiply key_strict by g y2² / ((θ2-s)² (1-c)) conceptually; here clear by hand
  have hexp : θ2 ^ 2 * y2 * (g * y2) * (θ2 - Real.sin θ2) ^ 2 <
      2 * (x2 ^ 2 + y2 ^ 2) * ((1 - Real.cos θ2) * g) * (θ2 - Real.sin θ2) ^ 2 := by
    have e1 : θ2 ^ 2 * y2 * (g * y2) * (θ2 - Real.sin θ2) ^ 2 =
        (θ2 ^ 2 * (1 - Real.cos θ2)) * (g * y2 * x2 * (θ2 - Real.sin θ2)) := by
      linear_combination (θ2 ^ 2 * g * y2 * (θ2 - Real.sin θ2)) * hcross
    have e2 : 2 * (x2 ^ 2 + y2 ^ 2) * ((1 - Real.cos θ2) * g) * (θ2 - Real.sin θ2) ^ 2 =
        (2 * (θ2 - Real.sin θ2) ^ 2 + 2 * (1 - Real.cos θ2) ^ 2) *
          (g * y2 * x2 * (θ2 - Real.sin θ2)) := by
      linear_combination
        (2 * g * (θ2 - Real.sin θ2) *
          (y2 * (1 - Real.cos θ2) - x2 * (θ2 - Real.sin θ2))) * hcross
    rw [e1, e2]
    exact mul_lt_mul_of_pos_right hkey
      (mul_pos (mul_pos (mul_pos g_pos hy) hx) hd)
  have hdsq : 0 < (θ2 - Real.sin θ2) ^ 2 := pow_two_pos_of_ne_zero hd.ne'
  exact lt_of_mul_lt_mul_right hexp hdsq.le

/-! ### Claim theorems -/

/-- C1: for every x2 > 0, y2 > 0 and N ≥ 2, `braquistocrona` (with θ2 the
solved sweep angle) samples θ uniformly over [0, θ2] into N points — the i-th
sample is θ2·i/(N−1), the first is exactly 0 and the last exactly θ2 — and
maps each sample θ to x = R·(θ − sin θ), y = R·(1 − cos θ) with
R = y2/(1 − cos θ2). -/
theorem C1_cycloid_sampling (x2 y2 θ2 : ℝ) (N : ℕ)
    (hx : 0 < x2) (hy : 0 < y2) (hN : 2 ≤ N) :
    ∃ xs ys T, braquistocrona x2 y2 θ2 N = .ok (xs, ys, T) ∧
      xs.length = N ∧ ys.length = N ∧
      (∀ i < N, (linspace 0 θ2 N)[i]? = some (θ2 * i / ((N : ℝ) - 1))) ∧
      (linspace 0 θ2 N).head? = some 0 ∧
      (linspace 0 θ2 N).getLast? = some θ2 ∧
      (∀ i < N,
        xs[i]? = some (cycloidR y2 θ2 *
          (θ2 * i / ((N : ℝ) - 1) - Real.sin (θ2 * i / ((N : ℝ) - 1)))) ∧
        ys[i]? = some (cycloidR y2 θ2 *
          (1 - Real.cos (θ2 * i / ((N : ℝ) - 1))))) := by
  have hsample : ∀ i < N, (linspace 0 θ2 N)[i]? = some (θ2 * i / ((N : ℝ) - 1)) := by
    intro i hi
    rw [linspace_getElem? 0 θ2 hi]
    ring_nf
  refine ⟨_, _, _, braquistocrona_ok y2 θ2 N hx.ne', ?_, ?_, hsample, ?_, ?_, ?_⟩
  · rw [List.length_map, linspace_length]
  · rw [List.length_map, linspace_length]
  · exact linspace_head? 0 θ2 (by omega)
  · exact linspace_getLast? 0 θ2 hN
  · intro i hi
    constructor
    · rw [List.getElem?_map, hsample i hi]
      rfl
    · rw [List.getElem?_map, hsample i hi]
      rfl

/-- C1 witness: the hypotheses are satisfiable, e.g. at x2 = 1, y2 = 1,
θ2 = 1, N = 2. -/
theorem C1_cycloid_sampling_witness :
    ∃ xs ys T, braquistocrona 1 1 1 2 = Except.ok (xs, ys, T) ∧ xs.length = 2 := by
  obtain ⟨xs, ys, T, h1, h2, -⟩ :=
    C1_cycloid_sampling 1 1 1 2 (by norm_num) (by norm_num) (by norm_num)
  exact ⟨xs, ys, T, h1, h2⟩

/-- C2: the branched travel time of the source (special case θ2 = π) coincides
with the spec's uniform formula T = θ2·sqrt(R/g) at every input, so the
θ2 = π case is not undefined and the branched implementation refines the
uniform formula. -/
theorem C2_time_branch_equiv (final_y θ2 : ℝ) :
    cycloidT final_y θ2 = specCycloidT final_y θ2 :=
  cycloidT_eq final_y θ2

/-- C3 counterexample: the claim admits y2 = 0, but there `linear` raises
`ZeroDivisionError` (the time formula divides by the slope m = 0) instead of
returning the sampled path and time. -/
theorem C3_linear_y2_zero_cx : linear 1 0 2 = Except.error PyErr.zeroDivision := by
  norm_num [linear]

/-- C3 amended (y2 ≥ 0 tightened to y2 > 0): for every x2 > 0, y2 > 0 and
N ≥ 2, `linear` returns x sampled uniformly over [0, x2] into N points
inclusive of both endpoints, y = m·x elementwise with m = y2/x2, and travel
time T = sqrt(2·(1+m²)/(g·m)·x2). -/
theorem C3_linear_sampling (x2 y2 : ℝ) (N : ℕ)
    (hx : 0 < x2) (hy : 0 < y2) (hN : 2 ≤ N) :
    ∃ xs ys, linear x2 y2 N =
        .ok (xs, ys, Real.sqrt (2 * (1 + (y2 / x2) ^ 2) / (g * (y2 / x2)) * x2)) ∧
      xs.length = N ∧ ys.length = N ∧
      (∀ i < N, xs[i]? = some (x2 * i / ((N : ℝ) - 1)) ∧
        ys[i]? = some (y2 / x2 * (x2 * i / ((N : ℝ) - 1)))) ∧
      xs.head? = some 0 ∧ xs.getLast? = some x2 := by
  have hm : y2 / x2 ≠ 0 := (div_pos hy hx).ne'
  have hT : linearT x2 y2 =
      Real.sqrt (2 * (1 + (y2 / x2) ^ 2) / (g * (y2 / x2)) * x2) := by
    unfold linearT
    rw [div_div]
  have hok := linear_ok N hx.ne' hm
  rw [hT] at hok
  have hsample : ∀ i < N, (linspace 0 x2 N)[i]? = some (x2 * i / ((N : ℝ) - 1)) := by
    intro i hi
    rw [linspace_getElem? 0 x2 hi]
    ring_nf
  refine ⟨_, _, hok, linspace_length 0 x2 N, ?_, ?_, ?_, ?_⟩
  · rw [List.length_map, linspace_length]
  · intro i hi
    refine ⟨hsample i hi, ?_⟩
    rw [List.getElem?_map, hsample i hi]
    rfl
  · exact linspace_head? 0 x2 (by omega)
  · exact linspace_getLast? 0 x2 hN

/-- C3 witness: the amended hypotheses are satisfiable, e.g. at x2 = 1,
y2 = 1, N = 2. -/
theorem C3_linear_sampling_witness :
    ∃ xs ys, linear 1 1 2 =
      Except.ok (xs, ys, Real.sqrt (2 * (1 + ((1:ℝ) / 1) ^ 2) / (g * ((1:ℝ) / 1)) * 1)) := by
  obtain ⟨xs, ys, h, -⟩ := C3_linear_sampling 1 1 2 (by norm_num) (by norm_num) (by norm_num)
  exact ⟨xs, ys, h⟩

/-- C5 counterexample: at x2 = −1, y2 = 1 (an input the claim says must be
rejected with InvalidInput) `linear` raises nothing and returns a result. -/
theorem C5_no_validation_cx : (linear (-1) 1 100).isOk = true := by
  rw [linear_ok 100 (by norm_num) (by norm_num)]
  rfl

/-- C5 amended: the solvers perform no input validation.  For any x2 ≠ 0 and
y2 ≠ 0 — including negative x2 or y2 — both return a result normally; at
x2 = 0 both raise ZeroDivisionError from the unguarded Python division
y2/x2 (no InvalidInput error exists in the code). -/
theorem C5_no_validation (x2 y2 θ2 : ℝ) (N : ℕ) (hx : x2 ≠ 0) (hy : y2 ≠ 0) :
    (∃ r, linear x2 y2 N = .ok r) ∧ (∃ r, braquistocrona x2 y2 θ2 N = .ok r) ∧
    linear 0 y2 N = .error PyErr.zeroDivision ∧
    braquistocrona 0 y2 θ2 N = .error PyErr.zeroDivision := by
  refine ⟨⟨_, linear_ok N hx (div_ne_zero hy hx)⟩,
          ⟨_, braquistocrona_ok y2 θ2 N hx⟩, ?_, ?_⟩
  · simp [linear]
  · simp [braquistocrona]

/-- C5 witness: the amended hypotheses are satisfiable, e.g. at x2 = −1,
y2 = 1. -/
theorem C5_no_validation_witness :
    (∃ r, linear (-1) 1 2 = Except.ok r) ∧
    linear 0 1 2 = Except.error PyErr.zeroDivision := by
  obtain ⟨h1, -, h3, -⟩ := C5_no_validation (-1) 1 1 2 (by norm_num) (by norm_num)
  exact ⟨h1, h3⟩

/-- C6 counterexample: at y2 = 0, x2 = 1 `linear` raises an unguarded
ZeroDivisionError (the time formula divides by the slope m = 0); the
degenerate case is not special-cased. -/
theorem C6_degenerate_cx : linear 1 0 100 = Except.error PyErr.zeroDivision := by
  norm_num [linear]

/-- C6 amended: for every x2 ≠ 0, `linear` at y2 = 0 raises ZeroDivisionError
from the unguarded division by the slope m = 0 — there is no special-casing
and no DegenerateCase error; `braquistocrona` likewise passes y2/x2 = 0 to
the root finder unguarded. -/
theorem C6_degenerate (x2 : ℝ) (N : ℕ) (hx : x2 ≠ 0) :
    linear x2 0 N = .error PyErr.zeroDivision := by
  simp [linear, hx]

/-- C6 witness: the amended hypothesis is satisfiable, e.g. at x2 = 2. -/
theorem C6_degenerate_witness : linear 2 0 100 = Except.error PyErr.zeroDivision :=
  C6_degenerate 2 100 (by norm_num)

/-- C8 counterexample: the claim admits y2 = 0, but there `linear` raises
ZeroDivisionError and returns no travel time at all. -/
theorem C8_y2_zero_cx : linear 3 0 2 = Except.error PyErr.zeroDivision := by
  norm_num [linear]

/-- C8 amended (y2 ≥ 0 tightened to y2 > 0): for every x2 > 0, y2 > 0 and
solved sweep angle θ2 (positive root of the source's `f`), the travel times
returned by both solvers are strictly positive (finiteness is inherent in
the real-valued model: no infinities arise on these inputs). -/
theorem C8_time_positive (x2 y2 θ2 : ℝ) (hx : 0 < x2) (hy : 0 < y2) (hθ : 0 < θ2)
    (hroot : cycloidF x2 y2 θ2 = 0) :
    0 < cycloidT y2 θ2 ∧ 0 < linearT x2 y2 := by
  have hc := one_sub_cos_pos hx hy hθ hroot
  have hR : 0 < cycloidR y2 θ2 := div_pos hy hc
  have hm : 0 < y2 / x2 := div_pos hy hx
  constructor
  · rw [cycloidT_eq]
    exact mul_pos hθ (Real.sqrt_pos.mpr (div_pos hR g_pos))
  · unfold linearT
    refine Real.sqrt_pos.mpr (mul_pos (div_pos (div_pos ?_ g_pos) hm) hx)
    nlinarith [sq_nonneg (y2 / x2)]

/-- C8 witness: the amended hypotheses are satisfiable, e.g. at x2 = π,
y2 = 2 with solved sweep angle θ2 = π. -/
theorem C8_time_positive_witness : 0 < cycloidT 2 Real.pi ∧ 0 < linearT Real.pi 2 :=
  C8_time_positive Real.pi 2 Real.pi Real.pi_pos (by norm_num) Real.pi_pos
    (by simp [cycloidF, Real.cos_pi, Real.sin_pi]; ring_nf)

/-- C9: the sweep angle θ2 (a function of x2, y2 alone: the root function `f`
closes over exactly those arguments), the radius R = cycloidR y2 θ2 and the
travel times cycloidT and linearT do not depend on the sample count: for any
N1, N2 both calls return the same travel time; N only changes the sampled
sequences. -/
theorem C9_N_independence (x2 y2 θ2 : ℝ) (N1 N2 : ℕ) (hx : x2 ≠ 0) (hy : y2 ≠ 0) :
    (∃ xs1 ys1 xs2 ys2,
      braquistocrona x2 y2 θ2 N1 = .ok (xs1, ys1, cycloidT y2 θ2) ∧
      braquistocrona x2 y2 θ2 N2 = .ok (xs2, ys2, cycloidT y2 θ2)) ∧
    (∃ xs1 ys1 xs2 ys2,
      linear x2 y2 N1 = .ok (xs1, ys1, linearT x2 y2) ∧
      linear x2 y2 N2 = .ok (xs2, ys2, linearT x2 y2)) := by
  have hm := div_ne_zero hy hx
  exact ⟨⟨_, _, _, _, braquistocrona_ok y2 θ2 N1 hx, braquistocrona_ok y2 θ2 N2 hx⟩,
         ⟨_, _, _, _, linear_ok N1 hx hm, linear_ok N2 hx hm⟩⟩

/-- C9 witness: the hypotheses are satisfiable, e.g. at x2 = 1, y2 = 1,
θ2 = 1 with N1 = 2, N2 = 3. -/
theorem C9_N_independence_witness :
    ∃ xs1 ys1 xs2 ys2,
      braquistocrona 1 1 1 2 = Except.ok (xs1, ys1, cycloidT 1 1) ∧
      braquistocrona 1 1 1 3 = Except.ok (xs2, ys2, cycloidT 1 1) :=
  (C9_N_independence 1 1 1 2 3 (by norm_num) (by norm_num)).1

/-- C10: whenever `linear` returns at all (for x2 > 0, N ≥ 2), the returned
x-coordinate sequence is strictly increasing, starts at exactly 0 and ends at
exactly x2, so the samples appear in traversal order along the line. -/
theorem C10_strict_increase (x2 y2 T : ℝ) (N : ℕ) (xs ys : List ℝ)
    (hx : 0 < x2) (hN : 2 ≤ N) (hok : linear x2 y2 N = .ok (xs, ys, T)) :
    xs.head? = some 0 ∧ xs.getLast? = some x2 ∧ xs.Pairwise (fun a b => a < b) := by
  have hx0 : x2 ≠ 0 := hx.ne'
  by_cases hm : y2 / x2 = 0
  · rw [linear, if_neg hx0] at hok
    simp only [hm, if_pos] at hok
    exact absurd hok (by simp)
  · rw [linear_ok N hx0 hm] at hok
    simp only [Except.ok.injEq, Prod.mk.injEq] at hok
    obtain ⟨hxs, -, -⟩ := hok
    subst hxs
    refine ⟨linspace_head? 0 x2 (by omega), linspace_getLast? 0 x2 hN, ?_⟩
    have hden : 0 < (N : ℝ) - 1 := by
      have : (2 : ℝ) ≤ (N : ℝ) := by exact_mod_cast hN
      linarith
    rw [linspace]
    refine List.pairwise_ofFn.mpr ?_
    intro i j hij
    have hcast : ((i : ℕ) : ℝ) < ((j : ℕ) : ℝ) := by exact_mod_cast hij
    have h2 : x2 * ((i : ℕ) : ℝ) / ((N : ℝ) - 1) < x2 * ((j : ℕ) : ℝ) / ((N : ℝ) - 1) :=
      (div_lt_div_iff₀ hden hden).mpr
        (by nlinarith [mul_pos (mul_pos hx (sub_pos.mpr hcast)) hden])
    simpa using h2

/-- C10 witness: the hypotheses are satisfiable, e.g. at x2 = 1, y2 = 1,
N = 2. -/
theorem C10_strict_increase_witness :
    (linspace 0 1 2).head? = some 0 ∧ (linspace 0 1 2).getLast? = some (1 : ℝ) ∧
    (linspace 0 1 2).Pairwise (fun a b => a < b) :=
  C10_strict_increase 1 1 (linearT 1 1) 2 (linspace 0 1 2)
    ((linspace 0 1 2).map fun t => (1 : ℝ) / 1 * t)
    (by norm_num) (by norm_num) (linear_ok 2 (by norm_num) (by norm_num))

/-- C4: for every valid input x2 > 0, y2 > 0 (with θ2 the solved sweep angle,
a positive first-arc root of the source's `f`), the first sampled point of
both the cycloid and the linear path is exactly (0, 0) and the last is
exactly (x2, y2) — the real-valued model realises the floating tolerance as
equality. -/
theorem C4_endpoints (x2 y2 θ2 : ℝ) (N : ℕ) (hx : 0 < x2) (hy : 0 < y2) (hN : 2 ≤ N)
    (hθ : 0 < θ2) (hroot : cycloidF x2 y2 θ2 = 0) :
    (∃ xs ys T, braquistocrona x2 y2 θ2 N = .ok (xs, ys, T) ∧
      xs.head? = some 0 ∧ ys.head? = some 0 ∧
      xs.getLast? = some x2 ∧ ys.getLast? = some y2) ∧
    (∃ xs ys T, linear x2 y2 N = .ok (xs, ys, T) ∧
      xs.head? = some 0 ∧ ys.head? = some 0 ∧
      xs.getLast? = some x2 ∧ ys.getLast? = some y2) := by
  have hd := theta_sub_sin_pos hθ
  have hc := one_sub_cos_pos hx hy hθ hroot
  have hcross := root_cross hx.ne' hd.ne' hroot
  have hheadθ := linspace_head? 0 θ2 (show 0 < N by omega)
  have hlastθ := linspace_getLast? 0 θ2 hN
  constructor
  · refine ⟨_, _, _, braquistocrona_ok y2 θ2 N hx.ne', ?_, ?_, ?_, ?_⟩
    · rw [List.head?_map, hheadθ]
      simp
    · rw [List.head?_map, hheadθ]
      simp
    · rw [List.getLast?_map, hlastθ]
      simp only [Option.map_some']
      congr 1
      unfold cycloidR
      field_simp
      linarith
    · rw [List.getLast?_map, hlastθ]
      simp only [Option.map_some']
      congr 1
      unfold cycloidR
      field_simp
  · refine ⟨_, _, _, linear_ok N hx.ne' (div_pos hy hx).ne', ?_, ?_, ?_, ?_⟩
    · exact linspace_head? 0 x2 (by omega)
    · rw [List.head?_map, linspace_head? 0 x2 (show 0 < N by omega)]
      simp
    · exact linspace_getLast? 0 x2 hN
    · rw [List.getLast?_map, linspace_getLast? 0 x2 hN]
      simp only [Option.map_some']
      congr 1
      field_simp

/-- C4 witness: the hypotheses are satisfiable, e.g. at x2 = π, y2 = 2 with
solved sweep angle θ2 = π (the cusp case). -/
theorem C4_endpoints_witness :
    ∃ xs ys T, braquistocrona Real.pi 2 Real.pi 2 = Except.ok (xs, ys, T) ∧
      xs.head? = some 0 ∧ ys.head? = some 0 ∧
      xs.getLast? = some Real.pi ∧ ys.getLast? = some 2 :=
  (C4_endpoints Real.pi 2 Real.pi 2 Real.pi_pos (by norm_num) (by norm_num) Real.pi_pos
    (by simp [cycloidF, Real.cos_pi, Real.sin_pi]; ring_nf)).1

/-- C7: for every valid input x2 > 0, y2 > 0 (with θ2 the solved sweep angle,
the first-arc root of the source's `f` in (0, 2π)), the cycloid travel time
returned by `braquistocrona` is strictly less than the straight-line travel
time returned by `linear` — the strict form of "≤ with equality only in the
degenerate limit y2 → 0". -/
theorem C7_cycloid_faster (x2 y2 θ2 : ℝ) (hx : 0 < x2) (hy : 0 < y2)
    (h0 : 0 < θ2) (h2π : θ2 < 2 * Real.pi) (hroot : cycloidF x2 y2 θ2 = 0) :
    cycloidT y2 θ2 < linearT x2 y2 := by
  have hc := one_sub_cos_pos hx hy h0 hroot
  have hR : 0 ≤ cycloidR y2 θ2 := (div_pos hy hc).le
  rw [cycloidT_eq]
  unfold linearT
  have h1 : θ2 * Real.sqrt (cycloidR y2 θ2 / g) =
      Real.sqrt (θ2 ^ 2 * (cycloidR y2 θ2 / g)) := by
    rw [Real.sqrt_mul (sq_nonneg θ2), Real.sqrt_sq h0.le]
  rw [h1]
  exact Real.sqrt_lt_sqrt (mul_nonneg (sq_nonneg θ2) (div_nonneg hR g_pos.le))
    (time_sq_lt hx hy h0 h2π hroot)

/-- C7 witness: the hypotheses are satisfiable, e.g. at x2 = π, y2 = 2 with
solved sweep angle θ2 = π. -/
theorem C7_cycloid_faster_witness : cycloidT 2 Real.pi < linearT Real.pi 2 :=
  C7_cycloid_faster Real.pi 2 Real.pi Real.pi_pos (by norm_num) Real.pi_pos
    (by linarith [Real.pi_pos])
    (by simp [cycloidF, Real.cos_pi, Real.sin_pi]; ring_nf)

end BrachApp
